import Mathlib

/-!
Verification of computeSales.py: a shallow embedding of the validation-and-
aggregation pipeline (build_price_catalog, parse_sales, compute_totals,
format_report, _add_elapsed_to_report, _compute_report_body, safe_load_json)
together with proofs of the specified properties.

Modelling conventions: Python floats are modelled as rationals, Python ints
as Int, json.load output as the inductive JValue, Python dicts as ordered
association lists with first-match lookup and in-place update (insertion at
the end for fresh keys), and everything printed as an explicit list of
message strings returned alongside each result.
-/

namespace ComputeSales

/-- A validated sale record, mirroring the frozen dataclass SaleLine. -/
structure SaleLine where
  sale_id : Int
  product : String
  quantity : Int
deriving DecidableEq

/-- JSON values as produced by json.load. Python distinguishes booleans,
integers and floats after parsing; floats are modelled as rationals. -/
inductive JValue where
  | null : JValue
  | bool : Bool → JValue
  | int : Int → JValue
  | float : ℚ → JValue
  | str : String → JValue
  | arr : List JValue → JValue
  | obj : List (String × JValue) → JValue

/-- Lookup of a key in a parsed JSON object, as dict.get does (json.load
produces a dict, so keys are effectively unique; first match is returned). -/
def getField : List (String × JValue) → String → Option JValue
  | [], _ => none
  | (k, v) :: rest, key => if k = key then some v else getField rest key

/-- Models the check isinstance(x, int) together with int(x): in Python,
bool is a subclass of int, so booleans pass this check. -/
def asInt : JValue → Option Int
  | .int n => some n
  | .bool b => some (if b then 1 else 0)
  | _ => none

/-- Models the check isinstance(x, (int, float)) together with float(x);
booleans again pass, as bool is a subclass of int. -/
def asNum : JValue → Option ℚ
  | .int n => some (n : ℚ)
  | .float q => some q
  | .bool b => some (if b then 1 else 0)
  | _ => none

/-- Models the Python str.strip method: drop whitespace on both ends. -/
def pyStrip (s : String) : String :=
  ⟨((s.data.dropWhile Char.isWhitespace).reverse.dropWhile Char.isWhitespace).reverse⟩

/-- Decimal digit character for a digit value (values above nine do not
occur: the argument is always taken modulo ten). -/
def digitChar : Nat → Char
  | 0 => '0'
  | 1 => '1'
  | 2 => '2'
  | 3 => '3'
  | 4 => '4'
  | 5 => '5'
  | 6 => '6'
  | 7 => '7'
  | 8 => '8'
  | _ => '9'

/-- Decimal digits of a natural number, most significant first; the fuel
argument makes the recursion structural (fuel n + 1 always suffices). -/
def natDigitsAux : Nat → Nat → List Char
  | 0, _ => []
  | fuel + 1, n =>
    if n < 10 then [digitChar n]
    else natDigitsAux fuel (n / 10) ++ [digitChar (n % 10)]

/-- Decimal digits of a natural number, most significant first. -/
def natDigits (n : Nat) : List Char := natDigitsAux (n + 1) n

/-- Decimal rendering of a natural number, as Python str does. -/
def natStr (n : Nat) : String := ⟨natDigits n⟩

/-- Decimal rendering of an integer, as Python str does. -/
def intStr (i : Int) : String := (if i < 0 then "-" else "") ++ natStr i.natAbs

/-- A single-quote character, used inside the diagnostic messages. -/
def apos : String := ⟨[Char.ofNat 39]⟩

/-- In-place update of an ordered association list: Python dict assignment
keeps the position of an existing key and appends a fresh key at the end. -/
def alInsert {α β : Type} [DecidableEq α] : List (α × β) → α → β → List (α × β)
  | [], k, v => [(k, v)]
  | (k0, v0) :: rest, k, v =>
    if k0 = k then (k0, v) :: rest else (k0, v0) :: alInsert rest k v

/-- Lookup in an ordered association list (Python dict indexing / get). -/
def alGet {α β : Type} [DecidableEq α] : List (α × β) → α → Option β
  | [], _ => none
  | (k0, v0) :: rest, k => if k0 = k then some v0 else alGet rest k

/-- Lookup with a default, modelling dict.get(key, default). -/
def alGetD {α β : Type} [DecidableEq α] (l : List (α × β)) (k : α) (d : β) : β :=
  (alGet l k).getD d

/-- The error printed by build_price_catalog when the document is no list. -/
def catalogNotListMsg : String :=
  "[ERROR] El catálogo de precios debe ser una lista de productos."

/-- The validation outcome of one catalog element: some (trimmed title,
price) when the element passes all checks of the loop body, none when the
element is skipped. -/
def catalogAction : JValue → Option (String × ℚ)
  | .obj fields =>
    match getField fields "title" with
    | some (.str t) =>
      if pyStrip t = "" then none
      else
        match (getField fields "price").bind asNum with
        | some p => some (pyStrip t, p)
        | none => none
    | _ => none
  | _ => none

/-- The messages printed while validating one catalog element (1-based
index idx), mirroring the three error branches of the loop body. -/
def catalogMsgs (idx : Nat) : JValue → List String
  | .obj fields =>
    match getField fields "title" with
    | some (.str t) =>
      if pyStrip t = "" then
        ["[ERROR] Producto #" ++ natStr idx ++ ": " ++ apos ++ "title" ++ apos
          ++ " inválido o vacío."]
      else
        match (getField fields "price").bind asNum with
        | some _ => []
        | none =>
          ["[ERROR] Producto " ++ apos ++ t ++ apos ++ ": " ++ apos ++ "price"
            ++ apos ++ " no es numérico."]
    | _ =>
      ["[ERROR] Producto #" ++ natStr idx ++ ": " ++ apos ++ "title" ++ apos
        ++ " inválido o vacío."]
  | _ => ["[ERROR] Producto #" ++ natStr idx ++ ": se esperaba un objeto JSON (dict)."]

/-- The enumerate loop of build_price_catalog over the catalog elements. -/
def buildCatalogLoop : List JValue → Nat → List String → List (String × ℚ) →
    List String × List (String × ℚ)
  | [], _, msgs, prices => (msgs, prices)
  | item :: rest, idx, msgs, prices =>
    buildCatalogLoop rest (idx + 1) (msgs ++ catalogMsgs idx item)
      (match catalogAction item with
       | none => prices
       | some (t, p) => alInsert prices t p)

/-- Embedding of build_price_catalog: turns the raw catalog JSON into a
mapping from trimmed title to price, reporting invalid entries. -/
def build_price_catalog (raw : JValue) : List String × List (String × ℚ) :=
  match raw with
  | .arr items => buildCatalogLoop items 1 [] []
  | _ => ([catalogNotListMsg], [])

/-- The error printed by parse_sales when the document is no list. -/
def salesNotListMsg : String :=
  "[ERROR] El archivo de ventas debe ser una lista de registros."

/-- The validation outcome of one sales element: some record when every
check of the loop body passes (a negative quantity still passes), none
when the element is skipped. -/
def saleAction : JValue → Option SaleLine
  | .obj fields =>
    match (getField fields "SALE_ID").bind asInt with
    | none => none
    | some i =>
      match getField fields "Product" with
      | some (.str s) =>
        if pyStrip s = "" then none
        else
          match (getField fields "Quantity").bind asInt with
          | none => none
          | some q => some ⟨i, pyStrip s, q⟩
      | _ => none
  | _ => none

/-- The warning printed for a negative quantity at 1-based index idx. -/
def negQuantityWarn (idx : Nat) (q : Int) : String :=
  "[WARN] Venta #" ++ natStr idx ++ ": " ++ apos ++ "Quantity" ++ apos
    ++ " negativo (" ++ intStr q ++ "). Se interpretará como devolución"

/-- The messages printed while validating one sales element (1-based index
idx), mirroring the four error branches and the negative-quantity warning
of the loop body. -/
def saleMsgs (idx : Nat) : JValue → List String
  | .obj fields =>
    match (getField fields "SALE_ID").bind asInt with
    | none => ["[ERROR] Venta #" ++ natStr idx ++ ": " ++ apos ++ "SALE_ID"
        ++ apos ++ " inválido."]
    | some _ =>
      match getField fields "Product" with
      | some (.str s) =>
        if pyStrip s = "" then
          ["[ERROR] Venta #" ++ natStr idx ++ ": " ++ apos ++ "Product"
            ++ apos ++ " inválido o vacío."]
        else
          match (getField fields "Quantity").bind asInt with
          | none => ["[ERROR] Venta #" ++ natStr idx ++ ": " ++ apos ++ "Quantity"
              ++ apos ++ " inválido (debe ser int)."]
          | some q => if q < 0 then [negQuantityWarn idx q] else []
      | _ => ["[ERROR] Venta #" ++ natStr idx ++ ": " ++ apos ++ "Product"
          ++ apos ++ " inválido o vacío."]
  | _ => ["[ERROR] Venta #" ++ natStr idx ++ ": se esperaba un objeto JSON (dict)."]

/-- The enumerate loop of parse_sales over the sales elements. -/
def parseSalesLoop : List JValue → Nat → List String → List SaleLine →
    List String × List SaleLine
  | [], _, msgs, recs => (msgs, recs)
  | item :: rest, idx, msgs, recs =>
    parseSalesLoop rest (idx + 1) (msgs ++ saleMsgs idx item)
      (recs ++ (saleAction item).toList)

/-- Embedding of parse_sales: turns the raw sales JSON into the ordered
list of validated sale records, reporting invalid entries. -/
def parse_sales (raw : JValue) : List String × List SaleLine :=
  match raw with
  | .arr items => parseSalesLoop items 1 [] []
  | _ => ([salesNotListMsg], [])

/-- The error printed by compute_totals for an unknown product. -/
def notFoundMsg (l : SaleLine) : String :=
  "[ERROR] Producto no encontrado en el catálogo: " ++ apos ++ l.product
    ++ apos ++ " (SALE_ID=" ++ intStr l.sale_id ++ ")"

/-- One iteration of the compute_totals loop: on a catalog miss only the
message list grows, on a hit the per-sale total and the grand total grow
by price times quantity. -/
def computeStep (prices : List (String × ℚ))
    (st : List String × List (Int × ℚ) × ℚ) (l : SaleLine) :
    List String × List (Int × ℚ) × ℚ :=
  match alGet prices l.product with
  | none => (st.1 ++ [notFoundMsg l], st.2.1, st.2.2)
  | some p =>
    (st.1,
     alInsert st.2.1 l.sale_id (alGetD st.2.1 l.sale_id 0 + p * (l.quantity : ℚ)),
     st.2.2 + p * (l.quantity : ℚ))

/-- Embedding of compute_totals: the per-SALE_ID totals dict and the grand
total, together with the error messages for unmatched products. -/
def compute_totals (prices : List (String × ℚ)) (sales : List SaleLine) :
    List String × List (Int × ℚ) × ℚ :=
  sales.foldl (computeStep prices) ([], [], 0)

/-- The contribution of one sale record to the totals: price times
quantity on a catalog hit, zero on a miss. -/
def lineContribution (prices : List (String × ℚ)) (l : SaleLine) : ℚ :=
  match alGet prices l.product with
  | some p => p * (l.quantity : ℚ)
  | none => 0

/-- Sum of the contributions of a list of sale records. -/
def contribSum (prices : List (String × ℚ)) (sales : List SaleLine) : ℚ :=
  (sales.map (lineContribution prices)).sum

/-- Sum of all values of an association list (of a Python dict). -/
def sumVals (l : List (Int × ℚ)) : ℚ := (l.map Prod.snd).sum

/-- Floor of q times scale plus one half, computed on numerator and
denominator: the nearest integer to q times scale, halves rounded up. -/
def roundScaled (q : ℚ) (scale : Int) : Int :=
  Int.fdiv (2 * q.num * scale + (q.den : Int)) (2 * (q.den : Int))

/-- The whole cents of an amount; the Python format specification .2f
rounds the underlying double to two decimals (here: halves up). -/
def roundCents (q : ℚ) : Int := roundScaled q 100

/-- The whole microseconds of a duration; the Python format specification
.6f rounds the underlying double to six decimals (here: halves up). -/
def roundMicros (q : ℚ) : Int := roundScaled q 1000000

/-- Insert a comma after every three characters, used on the reversed
digit list to model the thousands grouping of the format ,.2f. -/
def group3 : List Char → List Char
  | a :: b :: c :: d :: rest => a :: b :: c :: ',' :: group3 (d :: rest)
  | l => l

/-- Decimal digits of a natural number with thousands separators. -/
def withCommas (n : Nat) : List Char := (group3 (natDigits n).reverse).reverse

/-- Pad a digit list on the left with zeros up to the given width. -/
def padZeros (width : Nat) (ds : List Char) : List Char :=
  List.replicate (width - ds.length) '0' ++ ds

/-- The characters of an amount under the Python format ,.2f: optional
sign, grouped integer part, point, exactly two fraction digits. -/
def moneyChars (q : ℚ) : List Char :=
  (if roundCents q < 0 then ['-'] else [])
    ++ withCommas ((roundCents q).natAbs / 100)
    ++ '.' :: padZeros 2 (natDigits ((roundCents q).natAbs % 100))

/-- The characters of a duration under the Python format .6f: optional
sign, ungrouped integer part, point, exactly six fraction digits. -/
def elapsedChars (e : ℚ) : List Char :=
  (if roundMicros e < 0 then ['-'] else [])
    ++ natDigits ((roundMicros e).natAbs / 1000000)
    ++ '.' :: padZeros 6 (natDigits ((roundMicros e).natAbs % 1000000))

/-- The three fixed lines format_report emits before the per-id block. -/
def headerLines : List (List Char) :=
  ["=== Sales Results ===".data, [], "Totales por SALE_ID:".data]

/-- The placeholder line emitted when no totals could be computed. -/
def placeholderLine : List Char :=
  "  (No se pudieron calcular totales por SALE_ID)".data

/-- One per-SALE_ID line of the report. -/
def saleIdLine (sid : Int) (v : ℚ) : List Char :=
  "  - SALE_ID ".data ++ (intStr sid).data ++ ": $".data ++ moneyChars v

/-- The grand-total line of the report. -/
def totalLine (g : ℚ) : List Char := "TOTAL GENERAL: $".data ++ moneyChars g

/-- The elapsed-time line of the report. -/
def tiempoLine (e : ℚ) : List Char :=
  "Tiempo transcurrido: ".data ++ elapsedChars e ++ " segundos".data

/-- The per-SALE_ID block of the report: one line per key in ascending
numeric order when the totals dict is nonempty (Python sorted on the
keys), the placeholder line otherwise. -/
def perIdBlock (totals : List (Int × ℚ)) : List (List Char) :=
  if totals = [] then [placeholderLine]
  else
    (List.insertionSort (· ≤ ·) (totals.map Prod.fst)).map
      fun sid => saleIdLine sid (alGetD totals sid 0)

/-- All report lines, in the order format_report appends them. -/
def reportLines (totals : List (Int × ℚ)) (g e : ℚ) : List (List Char) :=
  headerLines ++ perIdBlock totals ++ [[], totalLine g, tiempoLine e, []]

/-- Join lines with a newline separator, as the Python join does. -/
def joinNL : List (List Char) → List Char
  | [] => []
  | [l] => l
  | l :: rest => l ++ '\n' :: joinNL rest

/-- Embedding of format_report: the human-readable report text. -/
def format_report (totals : List (Int × ℚ)) (g e : ℚ) : String :=
  ⟨joinNL (reportLines totals g e)⟩

/-- Everything of the report that precedes the elapsed-time line,
including the newline that separates them. -/
def reportFront (totals : List (Int × ℚ)) (g : ℚ) : List Char :=
  joinNL (headerLines ++ perIdBlock totals ++ [[], totalLine g]) ++ ['\n']

/-- Tests whether the first list is an initial segment of the second. -/
def begins : List Char → List Char → Bool
  | [], _ => true
  | _ :: _, [] => false
  | p :: ps, c :: cs => if p = c then begins ps cs else false

/-- Embedding of the Python str.replace method on character lists: scan
left to right, replacing each non-overlapping occurrence of pat by rep. -/
def replaceAll (pat rep : List Char) : List Char → List Char
  | [] => []
  | c :: rest =>
    if begins pat (c :: rest) ∧ pat ≠ [] then
      rep ++ replaceAll pat rep (rest.drop (pat.length - 1))
    else
      c :: replaceAll pat rep rest
termination_by s => s.length
decreasing_by
  all_goals simp [List.length_drop]
  omega

/-- The literal the orchestrator replaces: the elapsed-time line produced
by formatting with a placeholder elapsed time of 0.0. -/
def tiempoLit : String := "Tiempo transcurrido: 0.000000 segundos"

/-- Embedding of _add_elapsed_to_report: substitute the measured elapsed
time into a report that was formatted with the placeholder 0.0. -/
def _add_elapsed_to_report (report : String) (elapsed : ℚ) : String :=
  ⟨replaceAll tiempoLit.data (tiempoLine elapsed) report.data⟩

/-- Embedding of _compute_report_body: given the two loaded documents
(none when loading failed), build the catalog, parse the sales, aggregate
and format with the placeholder elapsed time. -/
def compute_report_body (rawCatalog rawSales : Option JValue) : Option String :=
  match rawCatalog, rawSales with
  | some c, some s =>
    some (format_report
      (compute_totals (build_price_catalog c).2 (parse_sales s).2).2.1
      (compute_totals (build_price_catalog c).2 (parse_sales s).2).2.2 0)
  | _, _ => none

/-- The exceptions that opening and json-loading a file can raise, as far
as safe_load_json is concerned. UnicodeDecodeError is listed separately
because in Python it subclasses ValueError, not OSError, and is also not
a json.JSONDecodeError. -/
inductive PyError where
  | fileNotFoundError : PyError
  | jsonDecodeError : String → PyError
  | osError : String → PyError
  | unicodeDecodeError : String → PyError
deriving DecidableEq

/-- What the file system and the parser do for the requested path: the
file is missing, opening or reading fails with some other OSError, the
bytes are not valid UTF-8, the decoded text is not valid JSON, or a JSON
value is obtained. -/
inductive LoadEnv where
  | missing : LoadEnv
  | osErr : String → LoadEnv
  | badUtf8 : String → LoadEnv
  | invalidJson : String → LoadEnv
  | ok : JValue → LoadEnv

/-- The exception that path.open plus json.load raises in the given
environment, if any: a missing file raises FileNotFoundError, another
I/O failure raises an OSError, bytes that are not valid UTF-8 make the
read inside json.load raise UnicodeDecodeError, and undecodable JSON
raises json.JSONDecodeError. -/
def loadRaises : LoadEnv → Option PyError
  | .missing => some .fileNotFoundError
  | .osErr m => some (.osError m)
  | .badUtf8 m => some (.unicodeDecodeError m)
  | .invalidJson m => some (.jsonDecodeError m)
  | .ok _ => none

/-- The value json.load returns when nothing is raised. -/
def loadValue : LoadEnv → Option JValue
  | .ok v => some v
  | _ => none

/-- Which except clause of safe_load_json catches a raised exception, and
the message it prints: the clauses are FileNotFoundError, then
json.JSONDecodeError, then OSError. A UnicodeDecodeError matches none of
them, being a ValueError that is neither of the three. -/
def catchClause (path : String) : PyError → Option String
  | .fileNotFoundError => some ("[ERROR] Archivo no encontrado: " ++ path)
  | .jsonDecodeError m => some ("[ERROR] JSON inválido en " ++ path ++ ": " ++ m)
  | .osError m => some ("[ERROR] No se pudo leer " ++ path ++ ": " ++ m)
  | .unicodeDecodeError _ => none

/-- Embedding of safe_load_json: Except.error is an exception escaping to
the caller, Except.ok carries the printed messages and the loaded value
(none after a caught failure). -/
def safe_load_json (path : String) (env : LoadEnv) :
    Except PyError (List String × Option JValue) :=
  match loadRaises env with
  | none => .ok ([], loadValue env)
  | some e =>
    match catchClause path e with
    | some msg => .ok ([msg], none)
    | none => .error e

/-- Recognises a capital T immediately followed by a lowercase i; no such
pair occurs before the elapsed-time line of a report, which is what makes
the replacement in _add_elapsed_to_report hit exactly that line. -/
def hasTi : List Char → Bool
  | c :: d :: rest => (c = 'T' && d = 'i') || hasTi (d :: rest)
  | _ => false

/-- Characters that can appear in a rendered number: no capital T and no
lowercase i among them. -/
def plainChar (c : Char) : Prop := c ≠ 'T' ∧ c ≠ 'i'

/-- A list of number-rendering characters. -/
def plainList (l : List Char) : Prop := ∀ c ∈ l, plainChar c

/-- The messages of the catalog loop in emission order. -/
def catalogMsgsAll : List JValue → Nat → List String
  | [], _ => []
  | item :: rest, idx => catalogMsgs idx item ++ catalogMsgsAll rest (idx + 1)

/-- The messages of the sales loop in emission order. -/
def salesMsgsAll : List JValue → Nat → List String
  | [], _ => []
  | item :: rest, idx => saleMsgs idx item ++ salesMsgsAll rest (idx + 1)

/-- The catalog insertions of the loop, without indices and messages. -/
def catalogFold (items : List JValue) (acc : List (String × ℚ)) :
    List (String × ℚ) :=
  items.foldl
    (fun acc item =>
      match catalogAction item with
      | none => acc
      | some (t, p) => alInsert acc t p)
    acc

lemma alGet_alInsert {α β : Type} [DecidableEq α] (l : List (α × β)) (k k1 : α) (v : β) :
    alGet (alInsert l k v) k1 = if k1 = k then some v else alGet l k1 := by
  induction l with
  | nil =>
    by_cases h : k1 = k
    · subst h; simp [alInsert, alGet]
    · simp [alInsert, alGet, h, Ne.symm h]
  | cons hd tl ih =>
    obtain ⟨k0, v0⟩ := hd
    by_cases h0 : k0 = k
    · subst h0
      by_cases h1 : k1 = k0
      · subst h1; simp [alInsert, alGet]
      · simp [alInsert, alGet, h1, Ne.symm h1]
    · by_cases h1 : k0 = k1
      · subst h1
        simp [alInsert, alGet, h0, Ne.symm h0]
      · simp [alInsert, alGet, h0, h1, ih]

lemma alGetD_alInsert {α : Type} [DecidableEq α] (l : List (α × ℚ)) (k k1 : α) (v : ℚ) :
    alGetD (alInsert l k v) k1 0 = if k1 = k then v else alGetD l k1 0 := by
  unfold alGetD
  rw [alGet_alInsert]
  by_cases h : k1 = k <;> simp [h]

lemma sumVals_cons (k : Int) (v : ℚ) (t : List (Int × ℚ)) :
    sumVals ((k, v) :: t) = v + sumVals t := by
  simp [sumVals]

lemma sumVals_alInsert (t : List (Int × ℚ)) (k : Int) (v : ℚ) :
    sumVals (alInsert t k (alGetD t k 0 + v)) = sumVals t + v := by
  induction t with
  | nil => simp [alInsert, alGetD, alGet, sumVals]
  | cons hd tl ih =>
    obtain ⟨k0, v0⟩ := hd
    by_cases h0 : k0 = k
    · subst h0
      have hg : alGetD ((k0, v0) :: tl) k0 0 = v0 := by simp [alGetD, alGet]
      rw [hg, show alInsert ((k0, v0) :: tl) k0 (v0 + v) = (k0, v0 + v) :: tl from by
        simp [alInsert], sumVals_cons, sumVals_cons]
      ring
    · have hg : alGetD ((k0, v0) :: tl) k 0 = alGetD tl k 0 := by
        simp [alGetD, alGet, h0]
      rw [hg, show alInsert ((k0, v0) :: tl) k (alGetD tl k 0 + v)
          = (k0, v0) :: alInsert tl k (alGetD tl k 0 + v) from by simp [alInsert, h0],
        sumVals_cons, sumVals_cons, ih]
      ring

lemma mem_keys_alInsert {α β : Type} [DecidableEq α] (l : List (α × β)) (k a : α) (v : β) :
    a ∈ (alInsert l k v).map Prod.fst ↔ a ∈ l.map Prod.fst ∨ a = k := by
  induction l with
  | nil => simp [alInsert]
  | cons hd tl ih =>
    obtain ⟨k0, v0⟩ := hd
    by_cases h0 : k0 = k
    · subst h0; simp [alInsert]; tauto
    · simp [alInsert, h0, ih]; tauto

lemma computeStep_miss (prices : List (String × ℚ)) (msgs : List String)
    (totals : List (Int × ℚ)) (grand : ℚ) (l : SaleLine)
    (halGet : alGet prices l.product = none) :
    computeStep prices (msgs, totals, grand) l = (msgs ++ [notFoundMsg l], totals, grand) := by
  simp [computeStep, halGet]

lemma computeStep_hit (prices : List (String × ℚ)) (msgs : List String)
    (totals : List (Int × ℚ)) (grand : ℚ) (l : SaleLine) (p : ℚ)
    (halGet : alGet prices l.product = some p) :
    computeStep prices (msgs, totals, grand) l
      = (msgs, alInsert totals l.sale_id (alGetD totals l.sale_id 0 + p * (l.quantity : ℚ)),
         grand + p * (l.quantity : ℚ)) := by
  simp [computeStep, halGet]

lemma computeFold_msgs (prices : List (String × ℚ)) :
    ∀ (sales : List SaleLine) (msgs : List String) (totals : List (Int × ℚ)) (grand : ℚ),
      (List.foldl (computeStep prices) (msgs, totals, grand) sales).1
        = msgs ++ (sales.filter fun l => (alGet prices l.product).isNone).map notFoundMsg := by
  intro sales
  induction sales with
  | nil => intro msgs totals grand; simp
  | cons l ls ih =>
    intro msgs totals grand
    cases halGet : alGet prices l.product with
    | none =>
      rw [List.foldl_cons, computeStep_miss prices msgs totals grand l halGet, ih]
      simp [List.filter_cons, halGet]
    | some p =>
      rw [List.foldl_cons, computeStep_hit prices msgs totals grand l p halGet, ih]
      simp [List.filter_cons, halGet]

lemma computeFold_grand (prices : List (String × ℚ)) :
    ∀ (sales : List SaleLine) (msgs : List String) (totals : List (Int × ℚ)) (grand : ℚ),
      (List.foldl (computeStep prices) (msgs, totals, grand) sales).2.2
        = grand + contribSum prices sales := by
  intro sales
  induction sales with
  | nil => intro msgs totals grand; simp [contribSum]
  | cons l ls ih =>
    intro msgs totals grand
    cases halGet : alGet prices l.product with
    | none =>
      rw [List.foldl_cons, computeStep_miss prices msgs totals grand l halGet, ih]
      simp [contribSum, lineContribution, halGet]
    | some p =>
      rw [List.foldl_cons, computeStep_hit prices msgs totals grand l p halGet, ih]
      simp [contribSum, lineContribution, halGet]
      ring

lemma computeFold_sumVals (prices : List (String × ℚ)) :
    ∀ (sales : List SaleLine) (msgs : List String) (totals : List (Int × ℚ)) (grand : ℚ),
      sumVals (List.foldl (computeStep prices) (msgs, totals, grand) sales).2.1
        = sumVals totals + contribSum prices sales := by
  intro sales
  induction sales with
  | nil => intro msgs totals grand; simp [contribSum]
  | cons l ls ih =>
    intro msgs totals grand
    cases halGet : alGet prices l.product with
    | none =>
      rw [List.foldl_cons, computeStep_miss prices msgs totals grand l halGet, ih]
      simp [contribSum, lineContribution, halGet]
    | some p =>
      rw [List.foldl_cons, computeStep_hit prices msgs totals grand l p halGet, ih,
        sumVals_alInsert]
      simp [contribSum, lineContribution, halGet]
      ring

lemma computeFold_keys (prices : List (String × ℚ)) :
    ∀ (sales : List SaleLine) (msgs : List String) (totals : List (Int × ℚ)) (grand : ℚ)
      (a : Int),
      a ∈ (List.foldl (computeStep prices) (msgs, totals, grand) sales).2.1.map Prod.fst
        ↔ a ∈ totals.map Prod.fst
          ∨ ∃ l ∈ sales, l.sale_id = a ∧ (alGet prices l.product).isSome := by
  intro sales
  induction sales with
  | nil => intro msgs totals grand a; simp
  | cons l ls ih =>
    intro msgs totals grand a
    cases halGet : alGet prices l.product with
    | none =>
      rw [List.foldl_cons, computeStep_miss prices msgs totals grand l halGet, ih]
      simp only [List.mem_cons, exists_eq_or_imp, halGet, Option.isSome_none]
      simp
    | some p =>
      rw [List.foldl_cons, computeStep_hit prices msgs totals grand l p halGet, ih]
      simp only [mem_keys_alInsert, List.mem_cons, exists_eq_or_imp, halGet,
        Option.isSome_some]
      constructor
      · rintro ((h | h) | h)
        · exact Or.inl h
        · exact Or.inr (Or.inl (by simp [Eq.symm h]))
        · exact Or.inr (Or.inr h)
      · rintro (h | h | h)
        · exact Or.inl (Or.inl h)
        · exact Or.inl (Or.inr (Eq.symm (by simpa using h)))
        · exact Or.inr h

lemma computeFold_byId (prices : List (String × ℚ)) :
    ∀ (sales : List SaleLine) (msgs : List String) (totals : List (Int × ℚ)) (grand : ℚ)
      (sid : Int),
      alGetD (List.foldl (computeStep prices) (msgs, totals, grand) sales).2.1 sid 0
        = alGetD totals sid 0
          + contribSum prices (sales.filter fun l => l.sale_id = sid) := by
  intro sales
  induction sales with
  | nil => intro msgs totals grand sid; simp [contribSum]
  | cons l ls ih =>
    intro msgs totals grand sid
    cases halGet : alGet prices l.product with
    | none =>
      rw [List.foldl_cons, computeStep_miss prices msgs totals grand l halGet, ih]
      by_cases hsid : l.sale_id = sid <;>
        simp [List.filter_cons, hsid, contribSum, lineContribution, halGet]
    | some p =>
      rw [List.foldl_cons, computeStep_hit prices msgs totals grand l p halGet, ih,
        alGetD_alInsert]
      by_cases hsid : l.sale_id = sid
      · subst hsid
        rw [if_pos rfl]
        simp [List.filter_cons, contribSum, lineContribution, halGet]
        ring
      · rw [if_neg fun h => hsid (Eq.symm h)]
        simp [List.filter_cons, hsid]

lemma computeFold_state_eq (prices : List (String × ℚ)) :
    ∀ (sales : List SaleLine) (msgs1 msgs2 : List String) (totals : List (Int × ℚ))
      (grand : ℚ),
      (List.foldl (computeStep prices) (msgs1, totals, grand) sales).2
        = (List.foldl (computeStep prices) (msgs2, totals, grand) sales).2 := by
  intro sales
  induction sales with
  | nil => intro msgs1 msgs2 totals grand; rfl
  | cons l ls ih =>
    intro msgs1 msgs2 totals grand
    cases halGet : alGet prices l.product with
    | none =>
      rw [List.foldl_cons, computeStep_miss prices msgs1 totals grand l halGet,
        List.foldl_cons, computeStep_miss prices msgs2 totals grand l halGet]
      exact ih _ _ _ _
    | some p =>
      rw [List.foldl_cons, computeStep_hit prices msgs1 totals grand l p halGet,
        List.foldl_cons, computeStep_hit prices msgs2 totals grand l p halGet]
      exact ih _ _ _ _

lemma computeFold_filter_matched (prices : List (String × ℚ)) :
    ∀ (sales : List SaleLine) (msgs : List String) (totals : List (Int × ℚ)) (grand : ℚ),
      (List.foldl (computeStep prices) (msgs, totals, grand) sales).2
        = (List.foldl (computeStep prices) (msgs, totals, grand)
            (sales.filter fun l => (alGet prices l.product).isSome)).2 := by
  intro sales
  induction sales with
  | nil => intro msgs totals grand; rfl
  | cons l ls ih =>
    intro msgs totals grand
    cases halGet : alGet prices l.product with
    | none =>
      have hfilter : List.filter (fun l => (alGet prices l.product).isSome) (l :: ls)
          = List.filter (fun l => (alGet prices l.product).isSome) ls := by
        simp [List.filter_cons, halGet]
      rw [hfilter, List.foldl_cons, computeStep_miss prices msgs totals grand l halGet, ih]
      exact computeFold_state_eq prices _ _ _ _ _
    | some p =>
      have hfilter : List.filter (fun l => (alGet prices l.product).isSome) (l :: ls)
          = l :: List.filter (fun l => (alGet prices l.product).isSome) ls := by
        simp [List.filter_cons, halGet]
      rw [hfilter, List.foldl_cons, List.foldl_cons]
      exact ih _ _ _

lemma contribSum_eq_matchedSum (prices : List (String × ℚ)) (sales : List SaleLine) :
    contribSum prices sales
      = ((sales.filter fun l => (alGet prices l.product).isSome).map
          fun l => ((alGet prices l.product).getD 0) * (l.quantity : ℚ)).sum := by
  induction sales with
  | nil => simp [contribSum]
  | cons l ls ih =>
    simp only [contribSum] at ih
    cases halGet : alGet prices l.product with
    | none => simp [contribSum, lineContribution, halGet, List.filter_cons, ih]
    | some p => simp [contribSum, lineContribution, halGet, List.filter_cons, ih]

/-- C1: for every price catalog and every list of validated sale records,
the grand total returned by compute_totals equals the sum of all values of
the per-SALE_ID totals dict, and both equal the sum, over the sale records
whose product is a key of the catalog, of catalog price times quantity,
each matched record contributing exactly once. -/
theorem compute_totals_invariant (prices : List (String × ℚ)) (sales : List SaleLine) :
    sumVals (compute_totals prices sales).2.1 = (compute_totals prices sales).2.2
    ∧ (compute_totals prices sales).2.2
      = ((sales.filter fun l => (alGet prices l.product).isSome).map
          fun l => ((alGet prices l.product).getD 0) * (l.quantity : ℚ)).sum := by
  unfold compute_totals
  rw [computeFold_grand, computeFold_sumVals, contribSum_eq_matchedSum]
  simp [sumVals]

/-- C10: a SALE_ID appears as a key of the totals dict returned by
compute_totals exactly when at least one sale record carrying that
SALE_ID has a product that is a key of the catalog; in particular a
SALE_ID all of whose records miss the catalog gets no entry at all. -/
theorem totals_key_iff_matched (prices : List (String × ℚ)) (sales : List SaleLine)
    (sid : Int) :
    sid ∈ (compute_totals prices sales).2.1.map Prod.fst
      ↔ ∃ l ∈ sales, l.sale_id = sid ∧ (alGet prices l.product).isSome := by
  unfold compute_totals
  rw [computeFold_keys]
  simp

/-- C4: a validated sale record whose product is not a key of the catalog
contributes nothing to the totals (dropping all unmatched records changes
neither the totals dict nor the grand total) and produces exactly one
error message, which spells out both the product and the SALE_ID. -/
theorem unknown_product_reported_excluded (prices : List (String × ℚ))
    (sales : List SaleLine) :
    (compute_totals prices sales).1
      = ((sales.filter fun l => (alGet prices l.product).isNone).map notFoundMsg)
    ∧ (compute_totals prices sales).2
      = (compute_totals prices (sales.filter fun l => (alGet prices l.product).isSome)).2
    ∧ ∀ l : SaleLine, ∃ s1 s2 s3 : String,
        notFoundMsg l = s1 ++ l.product ++ s2 ++ intStr l.sale_id ++ s3 := by
  refine ⟨?_, ?_, ?_⟩
  · unfold compute_totals
    rw [computeFold_msgs]
    simp
  · unfold compute_totals
    exact computeFold_filter_matched prices sales [] [] 0
  · intro l
    refine ⟨"[ERROR] Producto no encontrado en el catálogo: " ++ apos,
      apos ++ " (SALE_ID=", ")", ?_⟩
    simp [notFoundMsg, String.append_assoc]

lemma parseSalesLoop_spec :
    ∀ (items : List JValue) (idx : Nat) (msgs : List String) (recs : List SaleLine),
      parseSalesLoop items idx msgs recs
        = (msgs ++ salesMsgsAll items idx, recs ++ items.filterMap saleAction) := by
  intro items
  induction items with
  | nil => intro idx msgs recs; simp [parseSalesLoop, salesMsgsAll]
  | cons item rest ih =>
    intro idx msgs recs
    rw [parseSalesLoop, ih]
    cases haction : saleAction item with
    | none => simp [salesMsgsAll, List.filterMap_cons, haction]
    | some l => simp [salesMsgsAll, List.filterMap_cons, haction]

lemma parse_sales_records (items : List JValue) :
    (parse_sales (.arr items)).2 = items.filterMap saleAction := by
  simp [parse_sales, parseSalesLoop_spec]

lemma contribSum_append (prices : List (String × ℚ)) (a b : List SaleLine) :
    contribSum prices (a ++ b) = contribSum prices a + contribSum prices b := by
  simp [contribSum]

/-- C3: a sales element whose SALE_ID is an integer, whose Product is a
string that is nonempty after trimming, and whose Quantity is a negative
integer makes parse_sales print exactly one message, the negative-quantity
warning (its tag is WARN, not ERROR), and still include the record; when
the trimmed product is a catalog key with price p the record moves both
the total of its SALE_ID and the grand total by p times quantity, a
negative amount whenever p is positive. -/
theorem negative_quantity_warned_included (fields : List (String × JValue))
    (i : Int) (s : String) (q : Int)
    (h1 : getField fields "SALE_ID" = some (.int i))
    (h2 : getField fields "Product" = some (.str s))
    (h3 : pyStrip s ≠ "")
    (h4 : getField fields "Quantity" = some (.int q))
    (h5 : q < 0) :
    (∀ idx : Nat, saleMsgs idx (.obj fields) = [negQuantityWarn idx q])
    ∧ (∀ idx : Nat, (negQuantityWarn idx q).data.take 6 = "[WARN]".data)
    ∧ saleAction (.obj fields) = some ⟨i, pyStrip s, q⟩
    ∧ (∀ items : List JValue, JValue.obj fields ∈ items →
        (⟨i, pyStrip s, q⟩ : SaleLine) ∈ (parse_sales (.arr items)).2)
    ∧ ∀ (prices : List (String × ℚ)) (p : ℚ), alGet prices (pyStrip s) = some p →
        ∀ pre post : List SaleLine,
          (compute_totals prices (pre ++ ⟨i, pyStrip s, q⟩ :: post)).2.2
            = (compute_totals prices (pre ++ post)).2.2 + p * (q : ℚ)
          ∧ alGetD (compute_totals prices (pre ++ ⟨i, pyStrip s, q⟩ :: post)).2.1 i 0
            = alGetD (compute_totals prices (pre ++ post)).2.1 i 0 + p * (q : ℚ)
          ∧ (0 < p → p * (q : ℚ) < 0) := by
  have haction : saleAction (.obj fields) = some ⟨i, pyStrip s, q⟩ := by
    simp [saleAction, h1, h2, h3, h4, asInt]
  refine ⟨?_, ?_, haction, ?_, ?_⟩
  · intro idx
    simp [saleMsgs, h1, h2, h3, h4, h5, asInt]
  · intro idx
    simp [negQuantityWarn]
  · intro items hmem
    rw [parse_sales_records, List.mem_filterMap]
    exact ⟨.obj fields, hmem, haction⟩
  · intro prices p hp pre post
    have hline : lineContribution prices ⟨i, pyStrip s, q⟩ = p * (q : ℚ) := by
      simp [lineContribution, hp]
    refine ⟨?_, ?_, ?_⟩
    · unfold compute_totals
      rw [computeFold_grand, computeFold_grand]
      rw [show pre ++ (⟨i, pyStrip s, q⟩ : SaleLine) :: post
          = pre ++ [(⟨i, pyStrip s, q⟩ : SaleLine)] ++ post from by simp,
        contribSum_append, contribSum_append, contribSum_append]
      simp [contribSum, hline]
      ring
    · unfold compute_totals
      rw [computeFold_byId, computeFold_byId]
      rw [List.filter_append, List.filter_append, List.filter_cons, if_pos (by simp)]
      rw [show (List.filter (fun l => l.sale_id = i) pre)
            ++ (⟨i, pyStrip s, q⟩ : SaleLine) :: List.filter (fun l => l.sale_id = i) post
          = List.filter (fun l => l.sale_id = i) pre
            ++ [(⟨i, pyStrip s, q⟩ : SaleLine)]
            ++ List.filter (fun l => l.sale_id = i) post from by simp,
        contribSum_append, contribSum_append, contribSum_append]
      simp [contribSum, hline]
      ring
    · intro hppos
      have hq : (q : ℚ) < 0 := by exact_mod_cast h5
      exact mul_neg_of_pos_of_neg hppos hq

/-- Witness for C3 at a concrete record: SALE_ID 7, product Widget priced
ten, quantity minus two. -/
theorem negative_quantity_warned_included_witness :
    saleMsgs 1 (.obj [("SALE_ID", .int 7), ("Product", .str "Widget"),
        ("Quantity", .int (-2))]) = [negQuantityWarn 1 (-2)]
    ∧ (⟨7, pyStrip "Widget", -2⟩ : SaleLine) ∈ (parse_sales (.arr
        [.obj [("SALE_ID", .int 7), ("Product", .str "Widget"),
          ("Quantity", .int (-2))]])).2
    ∧ (compute_totals [("Widget", 10)] [⟨7, pyStrip "Widget", -2⟩]).2.2
        = (compute_totals [("Widget", 10)] []).2.2 + 10 * ((-2 : Int) : ℚ) := by
  have h := negative_quantity_warned_included
    [("SALE_ID", .int 7), ("Product", .str "Widget"), ("Quantity", .int (-2))]
    7 "Widget" (-2) rfl rfl (by decide) rfl (by decide)
  exact ⟨h.1 1,
    h.2.2.2.1 _ (List.mem_cons_self _ _),
    (h.2.2.2.2 [("Widget", 10)] 10 rfl [] []).1⟩

lemma buildCatalogLoop_spec :
    ∀ (items : List JValue) (idx : Nat) (msgs : List String) (prices : List (String × ℚ)),
      buildCatalogLoop items idx msgs prices
        = (msgs ++ catalogMsgsAll items idx, catalogFold items prices) := by
  intro items
  induction items with
  | nil => intro idx msgs prices; simp [buildCatalogLoop, catalogMsgsAll, catalogFold]
  | cons item rest ih =>
    intro idx msgs prices
    rw [buildCatalogLoop, ih]
    cases haction : catalogAction item with
    | none => simp [catalogMsgsAll, catalogFold, haction]
    | some e => obtain ⟨t, p⟩ := e; simp [catalogMsgsAll, catalogFold, haction]

lemma alGet_catalogFold :
    ∀ (items : List JValue) (acc : List (String × ℚ)) (t : String),
      alGet (catalogFold items acc) t
        = (((items.filterMap catalogAction).reverse.find? fun e => decide (e.1 = t)).map
            Prod.snd).or (alGet acc t) := by
  intro items
  induction items with
  | nil => intro acc t; simp [catalogFold]
  | cons item rest ih =>
    intro acc t
    cases haction : catalogAction item with
    | none =>
      have hfold : catalogFold (item :: rest) acc = catalogFold rest acc := by
        simp [catalogFold, haction]
      rw [hfold, ih]
      simp [List.filterMap_cons, haction]
    | some e =>
      obtain ⟨t0, p⟩ := e
      have hfold : catalogFold (item :: rest) acc = catalogFold rest (alInsert acc t0 p) := by
        simp [catalogFold, haction]
      rw [hfold, ih]
      simp only [List.filterMap_cons, haction, List.reverse_cons, List.find?_append]
      cases hfind : (rest.filterMap catalogAction).reverse.find? fun e => decide (e.1 = t) with
      | some e => simp [alGet_alInsert]
      | none =>
        by_cases ht : t = t0
        · subst ht
          simp [alGet_alInsert, List.find?]
        · simp [alGet_alInsert, ht, List.find?, Ne.symm ht]

/-- C2: build_price_catalog returns one error and an empty catalog on a
non-list document; on a list it emits the per-element messages in order
and folds the valid elements into the catalog; an element is skipped
exactly when it is reported, non-objects, bad titles and bad prices are
skipped, a valid element contributes its trimmed title and price; and a
lookup in the resulting catalog returns the price of the last valid
element carrying that trimmed title (later elements overwrite earlier
ones). The builder is a total function: it never fails. -/
theorem catalog_builder_contract :
    (∀ raw : JValue, (∀ xs, raw ≠ .arr xs) →
        build_price_catalog raw = ([catalogNotListMsg], []))
    ∧ (∀ xs : List JValue,
        build_price_catalog (.arr xs) = (catalogMsgsAll xs 1, catalogFold xs []))
    ∧ (∀ (idx : Nat) (item : JValue),
        catalogAction item = none ↔ catalogMsgs idx item ≠ [])
    ∧ (∀ item : JValue, (∀ fields, item ≠ .obj fields) → catalogAction item = none)
    ∧ (∀ (fields : List (String × JValue)),
        ((∀ s, getField fields "title" ≠ some (.str s))
          ∨ ∃ s, getField fields "title" = some (.str s) ∧ pyStrip s = "") →
        catalogAction (.obj fields) = none)
    ∧ (∀ (fields : List (String × JValue)) (s : String),
        getField fields "title" = some (.str s) → pyStrip s ≠ "" →
        (getField fields "price").bind asNum = none →
        catalogAction (.obj fields) = none)
    ∧ (∀ (fields : List (String × JValue)) (s : String) (p : ℚ),
        getField fields "title" = some (.str s) → pyStrip s ≠ "" →
        (getField fields "price").bind asNum = some p →
        catalogAction (.obj fields) = some (pyStrip s, p))
    ∧ (∀ (xs : List JValue) (t : String),
        alGet (build_price_catalog (.arr xs)).2 t
          = ((xs.filterMap catalogAction).reverse.find? fun e => decide (e.1 = t)).map
              Prod.snd) := by
  refine ⟨?_, ?_, ?_, ?_, ?_, ?_, ?_, ?_⟩
  · intro raw h
    cases raw with
    | arr xs => exact absurd rfl (h xs)
    | null => rfl
    | bool b => rfl
    | int n => rfl
    | float q => rfl
    | str s => rfl
    | obj fields => rfl
  · intro xs
    simp [build_price_catalog, buildCatalogLoop_spec]
  · intro idx item
    cases item with
    | obj fields =>
      cases htitle : getField fields "title" with
      | none => simp [catalogAction, catalogMsgs, htitle]
      | some tv =>
        cases tv with
        | str t =>
          by_cases hstrip : pyStrip t = ""
          · simp [catalogAction, catalogMsgs, htitle, hstrip]
          · cases hprice : (getField fields "price").bind asNum with
            | none => simp [catalogAction, catalogMsgs, htitle, hstrip, hprice]
            | some p => simp [catalogAction, catalogMsgs, htitle, hstrip, hprice]
        | null => simp [catalogAction, catalogMsgs, htitle]
        | bool b => simp [catalogAction, catalogMsgs, htitle]
        | int n => simp [catalogAction, catalogMsgs, htitle]
        | float q => simp [catalogAction, catalogMsgs, htitle]
        | arr l => simp [catalogAction, catalogMsgs, htitle]
        | obj l => simp [catalogAction, catalogMsgs, htitle]
    | null => simp [catalogAction, catalogMsgs]
    | bool b => simp [catalogAction, catalogMsgs]
    | int n => simp [catalogAction, catalogMsgs]
    | float q => simp [catalogAction, catalogMsgs]
    | str s => simp [catalogAction, catalogMsgs]
    | arr l => simp [catalogAction, catalogMsgs]
  · intro item h
    cases item with
    | obj fields => exact absurd rfl (h fields)
    | null => rfl
    | bool b => rfl
    | int n => rfl
    | float q => rfl
    | str s => rfl
    | arr l => rfl
  · intro fields h
    cases htitle : getField fields "title" with
    | none => simp [catalogAction, htitle]
    | some tv =>
      cases tv with
      | str t =>
        rcases h with h | ⟨s, hs, hempty⟩
        · exact absurd htitle (h t)
        · rw [htitle] at hs
          obtain rfl : t = s := by
            cases hs
            rfl
          simp [catalogAction, htitle, hempty]
      | null => simp [catalogAction, htitle]
      | bool b => simp [catalogAction, htitle]
      | int n => simp [catalogAction, htitle]
      | float q => simp [catalogAction, htitle]
      | arr l => simp [catalogAction, htitle]
      | obj l => simp [catalogAction, htitle]
  · intro fields s htitle hstrip hprice
    simp [catalogAction, htitle, hstrip, hprice]
  · intro fields s p htitle hstrip hprice
    simp [catalogAction, htitle, hstrip, hprice]
  · intro xs t
    have h2 : (build_price_catalog (.arr xs)).2 = catalogFold xs [] := by
      simp [build_price_catalog, buildCatalogLoop_spec]
    rw [h2, alGet_catalogFold]
    simp [alGet]

/-- Witness for C2: the non-list case at null, and the last-write-wins
lookup on a catalog with a duplicated title. -/
theorem catalog_builder_contract_witness :
    build_price_catalog .null = ([catalogNotListMsg], [])
    ∧ alGet (build_price_catalog (.arr
        [.obj [("title", .str "A"), ("price", .int 1)],
         .obj [("title", .str "A"), ("price", .int 2)]])).2 "A"
      = ((([JValue.obj [("title", .str "A"), ("price", .int 1)],
           .obj [("title", .str "A"), ("price", .int 2)]].filterMap
              catalogAction).reverse.find? fun e => decide (e.1 = "A")).map Prod.snd) :=
  ⟨catalog_builder_contract.1 .null fun _ h => JValue.noConfusion h,
   catalog_builder_contract.2.2.2.2.2.2.2
     [.obj [("title", .str "A"), ("price", .int 1)],
      .obj [("title", .str "A"), ("price", .int 2)]] "A"⟩

/-- C5: the report consists of the fixed header, the per-SALE_ID block,
and the fixed footer; an empty totals dict makes the block exactly the
single placeholder line; a nonempty totals dict makes the block exactly
one line per key, ordered ascending numerically (not by insertion
order). -/
theorem reporter_per_id_block (totals : List (Int × ℚ)) (g e : ℚ) :
    format_report totals g e
      = ⟨joinNL (headerLines ++ perIdBlock totals ++ [[], totalLine g, tiempoLine e, []])⟩
    ∧ (totals = [] → perIdBlock totals = [placeholderLine])
    ∧ (totals ≠ [] → ∃ ks : List Int,
        ks.Perm (totals.map Prod.fst)
        ∧ List.Sorted (· ≤ ·) ks
        ∧ perIdBlock totals = ks.map fun sid => saleIdLine sid (alGetD totals sid 0)) := by
  refine ⟨rfl, ?_, ?_⟩
  · intro h
    simp [perIdBlock, h]
  · intro h
    refine ⟨List.insertionSort (· ≤ ·) (totals.map Prod.fst),
      List.perm_insertionSort _ _, List.sorted_insertionSort _ _, ?_⟩
    simp [perIdBlock, h]

/-- Witness for C5: the placeholder on an empty totals dict, and the
sorted one-line-per-key block on a two-key dict given in descending
order. -/
theorem reporter_per_id_block_witness :
    perIdBlock [] = [placeholderLine]
    ∧ ∃ ks : List Int,
        ks.Perm ([((2 : Int), (5 : ℚ)), (1, 3)].map Prod.fst)
        ∧ List.Sorted (· ≤ ·) ks
        ∧ perIdBlock [((2 : Int), (5 : ℚ)), (1, 3)]
            = ks.map fun sid => saleIdLine sid (alGetD [((2 : Int), (5 : ℚ)), (1, 3)] sid 0) :=
  ⟨(reporter_per_id_block [] 0 0).2.1 rfl,
   (reporter_per_id_block [((2 : Int), (5 : ℚ)), (1, 3)] 0 0).2.2 (List.cons_ne_nil _ _)⟩

lemma hasTi_cons2 (c d : Char) (rest : List Char) :
    hasTi (c :: d :: rest) = ((c = 'T' && d = 'i') || hasTi (d :: rest)) := rfl

lemma hasTi_cons_of_ne (c : Char) (l : List Char) (hc : c ≠ 'T') :
    hasTi (c :: l) = hasTi l := by
  cases l with
  | nil => rfl
  | cons d rest => simp [hasTi_cons2, hc]

lemma hasTi_cons_false (c : Char) (l : List Char) (h : hasTi (c :: l) = false) :
    hasTi l = false := by
  cases l with
  | nil => rfl
  | cons d rest =>
    rw [hasTi_cons2] at h
    exact (Bool.or_eq_false_iff.mp h).2

lemma hasTi_of_plain (l : List Char) (h : plainList l) : hasTi l = false := by
  induction l with
  | nil => rfl
  | cons c rest ih =>
    rw [hasTi_cons_of_ne c rest (h c (List.mem_cons_self _ _)).1]
    exact ih fun x hx => h x (List.mem_cons_of_mem _ hx)

lemma hasTi_append_plain_left (a b : List Char) (ha : plainList a)
    (hb : hasTi b = false) : hasTi (a ++ b) = false := by
  induction a with
  | nil => simpa
  | cons c rest ih =>
    rw [List.cons_append, hasTi_cons_of_ne c _ (ha c (List.mem_cons_self _ _)).1]
    exact ih fun x hx => ha x (List.mem_cons_of_mem _ hx)

lemma hasTi_append_head (a b : List Char) (ha : hasTi a = false)
    (hb : hasTi b = false) (hhead : b.head? ≠ some 'i') :
    hasTi (a ++ b) = false := by
  induction a with
  | nil => simpa
  | cons c rest ih =>
    cases rest with
    | nil =>
      cases b with
      | nil => rfl
      | cons d bs =>
        rw [List.cons_append, List.nil_append, hasTi_cons2]
        have hd : d ≠ 'i' := by
          intro hdi
          exact hhead (by simp [hdi])
        simp [hd, hb]
    | cons d rest2 =>
      rw [hasTi_cons2] at ha
      obtain ⟨hpair, htail⟩ := Bool.or_eq_false_iff.mp ha
      rw [List.cons_append, List.cons_append, hasTi_cons2]
      rw [List.cons_append] at ih
      simp only [hpair, Bool.false_or]
      exact ih htail

lemma hasTi_append_plain_right (a b : List Char) (ha : hasTi a = false)
    (hb : plainList b) : hasTi (a ++ b) = false := by
  refine hasTi_append_head a b ha (hasTi_of_plain b hb) ?_
  cases b with
  | nil => simp
  | cons x xs =>
    simp only [List.head?_cons, Ne, Option.some.injEq]
    exact (hb x (List.mem_cons_self _ _)).2

lemma joinNL_cons_cons (x y : List Char) (ls : List (List Char)) :
    joinNL (x :: y :: ls) = x ++ '\n' :: joinNL (y :: ls) := rfl

lemma hasTi_joinNL (ls : List (List Char))
    (h : ∀ l ∈ ls, hasTi l = false ∧ l.head? ≠ some 'i') :
    hasTi (joinNL ls) = false ∧ (joinNL ls).head? ≠ some 'i' := by
  induction ls with
  | nil => exact ⟨rfl, by simp [joinNL]⟩
  | cons l rest ih =>
    cases rest with
    | nil => exact ⟨(h l (List.mem_cons_self _ _)).1, (h l (List.mem_cons_self _ _)).2⟩
    | cons m rest2 =>
      have hr := ih fun x hx => h x (List.mem_cons_of_mem _ hx)
      have hl := h l (List.mem_cons_self _ _)
      have hnl : hasTi ('\n' :: joinNL (m :: rest2)) = false := by
        rw [hasTi_cons_of_ne _ _ (by decide)]
        exact hr.1
      constructor
      · rw [joinNL_cons_cons]
        refine hasTi_append_head _ _ hl.1 hnl (by simp)
      · rw [joinNL_cons_cons]
        cases l with
        | nil => simp
        | cons c cs =>
          simpa using hl.2

lemma plainChar_digitChar (n : Nat) : plainChar (digitChar n) := by
  unfold digitChar
  split <;> exact ⟨by decide, by decide⟩

lemma plainList_append (a b : List Char) (ha : plainList a) (hb : plainList b) :
    plainList (a ++ b) := by
  intro c hc
  rcases List.mem_append.mp hc with h | h
  · exact ha c h
  · exact hb c h

lemma plainList_natDigitsAux (fuel : Nat) : ∀ n : Nat, plainList (natDigitsAux fuel n) := by
  induction fuel with
  | zero => intro n c hc; simp [natDigitsAux] at hc
  | succ fuel ih =>
    intro n c hc
    by_cases h : n < 10
    · simp [natDigitsAux, h] at hc
      subst hc
      exact plainChar_digitChar n
    · simp [natDigitsAux, h] at hc
      rcases hc with hc | hc
      · exact ih _ c hc
      · subst hc
        exact plainChar_digitChar _

lemma plainList_natDigits (n : Nat) : plainList (natDigits n) :=
  plainList_natDigitsAux _ _

lemma plainList_reverse (l : List Char) (h : plainList l) : plainList l.reverse := by
  intro c hc
  exact h c (List.mem_reverse.mp hc)

lemma plainList_group3 : ∀ (n : Nat) (l : List Char), l.length ≤ n → plainList l →
    plainList (group3 l) := by
  intro n
  induction n with
  | zero =>
    intro l hlen h
    have : l = [] := List.length_eq_zero.mp (Nat.le_zero.mp hlen)
    subst this
    exact h
  | succ n ih =>
    intro l hlen h
    match l with
    | [] => exact h
    | [a] => exact h
    | [a, b] => exact h
    | [a, b, c] => exact h
    | a :: b :: c :: d :: rest =>
      show plainList (a :: b :: c :: ',' :: group3 (d :: rest))
      intro x hx
      simp only [List.mem_cons] at hx
      rcases hx with rfl | rfl | rfl | rfl | hx
      · exact h x (by simp)
      · exact h x (by simp)
      · exact h x (by simp)
      · exact ⟨by decide, by decide⟩
      · refine ih (d :: rest) ?_ (fun y hy => h y (by simp [List.mem_cons] at hy ⊢; tauto)) x hx
        simp at hlen ⊢
        omega

lemma plainList_withCommas (n : Nat) : plainList (withCommas n) :=
  plainList_reverse _
    (plainList_group3 (natDigits n).reverse.length _ le_rfl
      (plainList_reverse _ (plainList_natDigits n)))

lemma plainList_padZeros (k : Nat) (ds : List Char) (h : plainList ds) :
    plainList (padZeros k ds) := by
  refine plainList_append _ _ ?_ h
  intro c hc
  rw [List.eq_of_mem_replicate hc]
  exact ⟨by decide, by decide⟩

lemma plainList_moneyChars (q : ℚ) : plainList (moneyChars q) := by
  refine plainList_append _ _ (plainList_append _ _ ?_ (plainList_withCommas _)) ?_
  · intro c hc
    split at hc
    · simp at hc; subst hc; exact ⟨by decide, by decide⟩
    · simp at hc
  · intro c hc
    simp only [List.mem_cons] at hc
    rcases hc with rfl | hc
    · exact ⟨by decide, by decide⟩
    · exact plainList_padZeros _ _ (plainList_natDigits _) c hc

lemma plainList_intStr (i : Int) : plainList (intStr i).data := by
  unfold intStr
  rw [String.data_append]
  refine plainList_append _ _ ?_ (plainList_natDigits _)
  intro c hc
  split at hc
  · rw [show ("-" : String).data = ['-'] from rfl] at hc
    simp at hc
    subst hc
    exact ⟨by decide, by decide⟩
  · rw [show ("" : String).data = [] from rfl] at hc
    simp at hc

lemma plainList_of_all (l : List Char)
    (h : (l.all fun c => !(c = 'T') && !(c = 'i')) = true) : plainList l := by
  intro c hc
  have hx := List.all_eq_true.mp h c hc
  simp at hx
  exact ⟨hx.1, hx.2⟩

lemma plainList_saleIdLine (sid : Int) (v : ℚ) : plainList (saleIdLine sid v) := by
  have h1 : plainList "  - SALE_ID ".data := plainList_of_all _ (by decide)
  have h3 : plainList ": $".data := plainList_of_all _ (by decide)
  exact plainList_append _ _
    (plainList_append _ _ (plainList_append _ _ h1 (plainList_intStr sid)) h3)
    (plainList_moneyChars v)

lemma hasTi_totalLine (g : ℚ) : hasTi (totalLine g) = false :=
  hasTi_append_plain_right _ _ (by decide) (plainList_moneyChars g)

lemma front_block_conditions (totals : List (Int × ℚ)) (g : ℚ) :
    ∀ l ∈ headerLines ++ perIdBlock totals ++ [[], totalLine g],
      hasTi l = false ∧ l.head? ≠ some 'i' := by
  intro l hl
  rcases List.mem_append.mp hl with h12 | h3
  · rcases List.mem_append.mp h12 with h | h2
    · rw [headerLines] at h
      simp only [List.mem_cons, List.not_mem_nil, or_false] at h
      rcases h with rfl | rfl | rfl
      · exact ⟨by decide, by decide⟩
      · exact ⟨rfl, by simp⟩
      · exact ⟨by decide, by decide⟩
    · rw [perIdBlock] at h2
      split at h2
      · simp at h2
        subst h2
        exact ⟨by decide, by decide⟩
      · simp only [List.mem_map] at h2
        obtain ⟨sid, -, rfl⟩ := h2
        refine ⟨hasTi_of_plain _ (plainList_saleIdLine sid _), ?_⟩
        rw [show saleIdLine sid (alGetD totals sid 0)
            = ' ' :: (" - SALE_ID ".data ++ (intStr sid).data ++ ": $".data
              ++ moneyChars (alGetD totals sid 0)) from rfl]
        simp
  · simp only [List.mem_cons, List.mem_singleton] at h3
    rcases h3 with rfl | rfl | h
    · exact ⟨rfl, by simp⟩
    · refine ⟨hasTi_totalLine g, ?_⟩
      rw [show totalLine g = 'T' :: ("OTAL GENERAL: $".data ++ moneyChars g) from rfl]
      simp
    · cases h

lemma hasTi_reportFront (totals : List (Int × ℚ)) (g : ℚ) :
    hasTi (reportFront totals g) = false := by
  have hj := hasTi_joinNL _ (front_block_conditions totals g)
  exact hasTi_append_head _ _ hj.1 rfl (by simp)

lemma joinNL_append_two (x : List Char) (ls : List (List Char)) (a b : List Char) :
    joinNL ((x :: ls) ++ [a, b]) = joinNL (x :: ls) ++ '\n' :: (a ++ '\n' :: b) := by
  induction ls generalizing x with
  | nil => rfl
  | cons y ls ih =>
    rw [show (x :: y :: ls) ++ [a, b] = x :: y :: (ls ++ [a, b]) from rfl,
      joinNL_cons_cons, show y :: (ls ++ [a, b]) = (y :: ls) ++ [a, b] from rfl,
      ih y, joinNL_cons_cons]
    simp [List.cons_append, List.append_assoc]

lemma format_report_data (totals : List (Int × ℚ)) (g e : ℚ) :
    (format_report totals g e).data
      = reportFront totals g ++ (tiempoLine e ++ ['\n']) := by
  show joinNL (reportLines totals g e) = _
  rw [reportLines, reportFront,
    show headerLines ++ perIdBlock totals ++ [[], totalLine g, tiempoLine e, []]
      = ("=== Sales Results ===".data
          :: ([[], "Totales por SALE_ID:".data] ++ perIdBlock totals ++ [[], totalLine g]))
        ++ [tiempoLine e, []] from by simp [headerLines],
    joinNL_append_two]
  simp [headerLines]

lemma begins_self_append (p b : List Char) : begins p (p ++ b) = true := by
  induction p with
  | nil => rfl
  | cons c cs ih => simp [begins, ih]

lemma replaceAll_nil (pat rep : List Char) : replaceAll pat rep [] = [] := by
  rw [replaceAll]

lemma replaceAll_cons_neg (pat rep : List Char) (c : Char) (rest : List Char)
    (h : begins pat (c :: rest) = false) :
    replaceAll pat rep (c :: rest) = c :: replaceAll pat rep rest := by
  rw [replaceAll, if_neg]
  intro hcon
  exact absurd hcon.1 (by simp [h])

lemma replaceAll_once (ps rep B : List Char) :
    ∀ A : List Char, hasTi A = false →
      replaceAll ('T' :: 'i' :: ps) rep (A ++ ('T' :: 'i' :: ps) ++ B)
        = A ++ rep ++ replaceAll ('T' :: 'i' :: ps) rep B := by
  intro A
  induction A with
  | nil =>
    intro _
    have hbeg : begins ('T' :: 'i' :: ps) ('T' :: ('i' :: ps ++ B)) = true := by
      rw [show ('T' : Char) :: ('i' :: ps ++ B) = ('T' :: 'i' :: ps) ++ B from rfl]
      exact begins_self_append _ _
    rw [List.nil_append,
      show ('T' :: 'i' :: ps) ++ B = 'T' :: ('i' :: ps ++ B) from rfl,
      replaceAll, if_pos ⟨hbeg, by simp⟩]
    have hdrop : List.drop (('T' :: 'i' :: ps).length - 1) ('i' :: ps ++ B) = B := by
      rw [show ('T' :: 'i' :: ps).length - 1 = ('i' :: ps).length from by simp,
        show ('i' : Char) :: ps ++ B = ('i' :: ps) ++ B from rfl, List.drop_left]
    rw [hdrop, List.nil_append]
  | cons c A ih =>
    intro hA
    have hnb : begins ('T' :: 'i' :: ps) (c :: (A ++ ('T' :: 'i' :: ps) ++ B)) = false := by
      cases A with
      | nil =>
        by_cases hc : ('T' : Char) = c
        · simp [begins, hc]
        · simp [begins, hc]
      | cons d A2 =>
        rw [hasTi_cons2] at hA
        obtain ⟨hpair, -⟩ := Bool.or_eq_false_iff.mp hA
        by_cases hc : ('T' : Char) = c
        · have hd : ('i' : Char) ≠ d := by
            intro hdi
            rw [← hc, ← hdi] at hpair
            simp at hpair
          simp [begins, hc, hd]
        · simp [begins, hc]
    rw [show (c :: A) ++ ('T' :: 'i' :: ps) ++ B = c :: (A ++ ('T' :: 'i' :: ps) ++ B)
        from rfl, replaceAll_cons_neg _ _ _ _ hnb, ih (hasTi_cons_false _ _ hA)]
    simp

lemma replaceAll_skips_short (ps rep : List Char) :
    replaceAll ('T' :: 'i' :: ps) rep ['\n'] = ['\n'] := by
  rw [replaceAll_cons_neg _ _ _ _ (by simp [begins]), replaceAll_nil]

lemma tiempoLine_zero_eq_lit : tiempoLine 0 = tiempoLit.data := rfl

lemma tiempoLit_shape :
    tiempoLit.data = 'T' :: 'i' :: "empo transcurrido: 0.000000 segundos".data := rfl

lemma add_elapsed_data (totals : List (Int × ℚ)) (g e : ℚ) :
    (_add_elapsed_to_report (format_report totals g 0) e).data
      = reportFront totals g ++ (tiempoLine e ++ ['\n']) := by
  show replaceAll tiempoLit.data (tiempoLine e) (format_report totals g 0).data = _
  rw [format_report_data, tiempoLine_zero_eq_lit, tiempoLit_shape,
    show reportFront totals g
        ++ (('T' :: 'i' :: "empo transcurrido: 0.000000 segundos".data) ++ ['\n'])
      = reportFront totals g
        ++ ('T' :: 'i' :: "empo transcurrido: 0.000000 segundos".data) ++ ['\n'] from by
      simp,
    replaceAll_once _ _ _ _ (hasTi_reportFront totals g), replaceAll_skips_short]
  simp

/-- C9: substituting the measured elapsed time into the report formatted
with the placeholder elapsed time 0.0 yields exactly the report formatted
directly with the measured elapsed time, for every totals dict, grand
total and elapsed value. -/
theorem add_elapsed_refines_format (totals : List (Int × ℚ)) (g e : ℚ) :
    _add_elapsed_to_report (format_report totals g 0) e = format_report totals g e := by
  have h : (_add_elapsed_to_report (format_report totals g 0) e).data
      = (format_report totals g e).data := by
    rw [add_elapsed_data, format_report_data]
  cases hmk : _add_elapsed_to_report (format_report totals g 0) e with
  | mk d1 =>
    cases hmk2 : format_report totals g e with
    | mk d2 =>
      rw [hmk, hmk2] at h
      simp at h
      rw [h]

/-- C8: for fixed catalog and sales documents the composed pipeline is a
pure function: there is a single line prefix, depending only on the two
documents, such that for every elapsed value the produced report text is
exactly that prefix followed by the elapsed-time line and a final
newline. Two runs on identical inputs therefore agree byte for byte
except for the elapsed-time line. -/
theorem report_deterministic_mod_elapsed (c s : JValue) :
    ∃ pre : List Char, ∀ e : ℚ, ∃ body : String,
      compute_report_body (some c) (some s) = some body
      ∧ (_add_elapsed_to_report body e).data = pre ++ (tiempoLine e ++ ['\n']) := by
  refine ⟨reportFront
      (compute_totals (build_price_catalog c).2 (parse_sales s).2).2.1
      (compute_totals (build_price_catalog c).2 (parse_sales s).2).2.2, ?_⟩
  intro e
  exact ⟨format_report
      (compute_totals (build_price_catalog c).2 (parse_sales s).2).2.1
      (compute_totals (build_price_catalog c).2 (parse_sales s).2).2.2 0,
    rfl, add_elapsed_data _ _ e⟩

/-- C6: Scenario A. Building the catalog from the single Widget entry
priced ten, parsing the single sale of three Widgets under SALE_ID 1, and
aggregating yields the totals dict with the single entry 1 maps-to 30 and
the grand total 30. -/
theorem scenario_a :
    (compute_totals
        (build_price_catalog (.arr [.obj [("title", .str "Widget"), ("price", .int 10)]])).2
        (parse_sales (.arr [.obj [("SALE_ID", .int 1), ("Product", .str "Widget"),
          ("Quantity", .int 3)]])).2).2.1 = [(1, 30)]
    ∧ (compute_totals
        (build_price_catalog (.arr [.obj [("title", .str "Widget"), ("price", .int 10)]])).2
        (parse_sales (.arr [.obj [("SALE_ID", .int 1), ("Product", .str "Widget"),
          ("Quantity", .int 3)]])).2).2.2 = 30 := by
  have hb : (build_price_catalog
      (.arr [.obj [("title", .str "Widget"), ("price", .int 10)]])).2
      = [("Widget", 10)] := rfl
  have hp : (parse_sales (.arr [.obj [("SALE_ID", .int 1), ("Product", .str "Widget"),
      ("Quantity", .int 3)]])).2 = [⟨1, "Widget", 3⟩] := rfl
  rw [hb, hp]
  constructor <;>
    norm_num [compute_totals, computeStep, alGet, alGetD, alInsert, List.foldl]

/-- Counterexample to C7: a file that opens but whose bytes are not valid
UTF-8 makes the read inside json.load raise UnicodeDecodeError, which none
of the three except clauses of safe_load_json matches (it is a ValueError,
neither FileNotFoundError nor json.JSONDecodeError nor OSError), so
safe_load_json re-raises instead of reporting and returning no value. -/
theorem safe_load_json_raises_on_bad_utf8 :
    safe_load_json "salesRecord.json" (.badUtf8 "invalid start byte")
      = .error (.unicodeDecodeError "invalid start byte") := rfl

/-- C7 amended: for every environment other than undecodable-UTF-8
content, safe_load_json returns normally: with no message and the parsed
value when nothing is raised, and with exactly one error message and no
value when the raised exception is one of the three caught kinds. -/
theorem safe_load_json_catches_handled (path : String) (env : LoadEnv)
    (h : ∀ m, env ≠ .badUtf8 m) :
    ∃ (msgs : List String) (val : Option JValue),
      safe_load_json path env = .ok (msgs, val)
      ∧ ((loadRaises env = none ∧ msgs = [] ∧ val = loadValue env)
        ∨ ∃ e m, loadRaises env = some e ∧ catchClause path e = some m
            ∧ msgs = [m] ∧ val = none) := by
  cases env with
  | missing => exact ⟨_, _, rfl, Or.inr ⟨_, _, rfl, rfl, rfl, rfl⟩⟩
  | osErr m => exact ⟨_, _, rfl, Or.inr ⟨_, _, rfl, rfl, rfl, rfl⟩⟩
  | invalidJson m => exact ⟨_, _, rfl, Or.inr ⟨_, _, rfl, rfl, rfl, rfl⟩⟩
  | ok v => exact ⟨_, _, rfl, Or.inl ⟨rfl, rfl, rfl⟩⟩
  | badUtf8 m => exact absurd rfl (h m)

/-- Witness for the amended C7 at a missing file. -/
theorem safe_load_json_catches_handled_witness :
    ∃ (msgs : List String) (val : Option JValue),
      safe_load_json "priceCatalogue.json" .missing = .ok (msgs, val)
      ∧ ((loadRaises .missing = none ∧ msgs = [] ∧ val = loadValue .missing)
        ∨ ∃ e m, loadRaises .missing = some e
            ∧ catchClause "priceCatalogue.json" e = some m
            ∧ msgs = [m] ∧ val = none) :=
  safe_load_json_catches_handled "priceCatalogue.json" .missing
    fun _ hm => LoadEnv.noConfusion hm

end ComputeSales
